import Mathlib

/-!
Verification of the bearer-token transport
(`vendor/github.com/google/go-containerregistry/pkg/v1/remote/transport/bearer.go`).

Strings are modelled as `List Char` (for the host-canonicalization layer) and as
Lean `String` elsewhere.  The Go standard-library collaborators used by the code
(`strings.Count`, `strings.Contains`, `net.SplitHostPort`, `net.JoinHostPort`)
are embedded below following their documented stdlib semantics; everything else
is translated directly from `bearer.go`.
-/

set_option autoImplicit false

/-- Models Go `strings.Count(s, string(c))` for a single-character substring:
the number of occurrences of `c` in `s`. -/
def countChar (c : Char) : List Char → Nat
  | [] => 0
  | a :: s => (if a = c then 1 else 0) + countChar c s

/-- Models Go `strings.Contains(s, string(c))` for a single character. -/
def hasChar (c : Char) : List Char → Bool
  | [] => false
  | a :: s => if a = c then true else hasChar c s

/-- Models Go `strings.Contains(s, "]:")`: whether `']'` immediately followed
by `':'` occurs in `s`. -/
def containsBrColon : List Char → Bool
  | a :: b :: s => if a = ']' ∧ b = ':' then true else containsBrColon (b :: s)
  | _ => false

/-- Index of the first occurrence of `c` in `s`, if any. -/
def indexOfChar (c : Char) : List Char → Option Nat
  | [] => none
  | a :: s => if a = c then some 0 else (indexOfChar c s).map (· + 1)

/-- Index of the last occurrence of `c` in `s`, if any. -/
def lastIndexOfChar (c : Char) : List Char → Option Nat
  | [] => none
  | a :: s =>
    match lastIndexOfChar c s with
    | some i => some (i + 1)
    | none => if a = c then some 0 else none

/-- Models Go `net.SplitHostPort`: splits a `host:port` form at the last colon,
handling a bracketed (IPv6) host; `none` models every error return. -/
def splitHostPort (hostPort : List Char) : Option (List Char × List Char) :=
  match lastIndexOfChar ':' hostPort with
  | none => none
  | some i =>
    if hostPort.head? = some '[' then
      match indexOfChar ']' hostPort with
      | none => none
      | some e =>
        if e + 1 = hostPort.length then none
        else if e + 1 = i then
          if hasChar '[' (hostPort.drop 1) then none
          else if hasChar ']' (hostPort.drop (e + 1)) then none
          else some ((hostPort.take e).drop 1, hostPort.drop (i + 1))
        else none
    else
      if hasChar ':' (hostPort.take i) then none
      else if hasChar '[' hostPort then none
      else if hasChar ']' hostPort then none
      else some (hostPort.take i, hostPort.drop (i + 1))

/-- Models Go `net.JoinHostPort`: brackets the host when it contains a colon. -/
def joinHostPort (host port : List Char) : List Char :=
  if hasChar ':' host then '[' :: host ++ ']' :: ':' :: port
  else host ++ ':' :: port

/-- Models the package-level `portMap` of `bearer.go` (a Go map lookup yields
the empty string on a missing key). -/
def portMap (scheme : String) : List Char :=
  if scheme = "http" then ['8', '0']
  else if scheme = "https" then ['4', '4', '3']
  else []

/-- `bearerTransport.canonicalAddress` from `bearer.go` (lines 171-194),
parameterized by the transport's `scheme` field. -/
def canonicalAddress (scheme : String) (host : List Char) : List Char :=
  if countChar ':' host = 1 ∨ (2 ≤ countChar ':' host ∧ containsBrColon host = true) then
    match splitHostPort host with
    | none => host
    | some (hostname, port) =>
      let port := if port = [] then portMap scheme else port
      joinHostPort hostname port
  else
    joinHostPort host (portMap scheme)

/-- `canonicalAddress` lifted to Lean `String`s. -/
def canonicalAddressS (scheme host : String) : String :=
  String.mk (canonicalAddress scheme host.data)

/-! ### Elementary facts about the character-list helpers -/

theorem countChar_append (c : Char) (a b : List Char) :
    countChar c (a ++ b) = countChar c a + countChar c b := by
  induction a with
  | nil => simp [countChar]
  | cons x a ih => simp [countChar, ih]; omega

theorem hasChar_append (c : Char) (a b : List Char) :
    hasChar c (a ++ b) = (hasChar c a || hasChar c b) := by
  induction a with
  | nil => simp [hasChar]
  | cons x a ih =>
    by_cases hx : x = c <;> simp [hasChar, hx, ih]

theorem hasChar_eq_false_iff (c : Char) (l : List Char) :
    hasChar c l = false ↔ countChar c l = 0 := by
  induction l with
  | nil => simp [hasChar, countChar]
  | cons x l ih =>
    by_cases hx : x = c <;> simp [hasChar, countChar, hx, ih]

theorem one_le_countChar_iff (c : Char) (l : List Char) :
    hasChar c l = true ↔ 1 ≤ countChar c l := by
  rcases h : hasChar c l with _ | _
  · rw [hasChar_eq_false_iff] at h
    simp [h]
  · constructor
    · intro _
      by_contra hc
      have h0 : countChar c l = 0 := by omega
      rw [← hasChar_eq_false_iff] at h0
      rw [h] at h0
      cases h0
    · intro _
      rfl

theorem take_len_append (a b : List Char) : (a ++ b).take a.length = a := by
  induction a with
  | nil => simp
  | cons x a ih => simp [ih]

theorem drop_len_append (a b : List Char) : (a ++ b).drop a.length = b := by
  induction a with
  | nil => simp
  | cons x a ih => simp [ih]

theorem drop_len_succ_append (a b : List Char) (x : Char) :
    (a ++ x :: b).drop (a.length + 1) = b := by
  induction a with
  | nil => simp
  | cons y a ih => simp only [List.cons_append, List.length_cons, List.drop_succ_cons]; exact ih

theorem take_len_cons_append (a b : List Char) (x : Char) :
    (a ++ x :: b).take (a.length + 1) = a ++ [x] := by
  induction a with
  | nil => simp
  | cons y a ih => simpa using ih

/-! ### Facts about `indexOfChar` and `lastIndexOfChar` -/

theorem lastIndexOfChar_eq_none_iff (c : Char) (l : List Char) :
    lastIndexOfChar c l = none ↔ hasChar c l = false := by
  induction l with
  | nil => simp [lastIndexOfChar, hasChar]
  | cons x l ih =>
    rcases h : lastIndexOfChar c l with _ | i <;>
      by_cases hx : x = c <;>
      simp [lastIndexOfChar, hasChar, h, hx, ← ih]

theorem lastIndexOfChar_append (c : Char) (a b : List Char) (h : hasChar c b = false) :
    lastIndexOfChar c (a ++ c :: b) = some a.length := by
  induction a with
  | nil =>
    have hb : lastIndexOfChar c b = none := (lastIndexOfChar_eq_none_iff c b).mpr h
    simp [lastIndexOfChar, hb]
  | cons x a ih => simp [lastIndexOfChar, ih]

theorem lastIndexOfChar_decomp (c : Char) (l : List Char) :
    ∀ i : Nat, lastIndexOfChar c l = some i →
      ∃ x y, l = x ++ c :: y ∧ x.length = i ∧ hasChar c y = false := by
  induction l with
  | nil => intro i h; simp [lastIndexOfChar] at h
  | cons a s ih =>
    intro i h
    rcases hs : lastIndexOfChar c s with _ | j
    · rw [lastIndexOfChar, hs] at h
      by_cases ha : a = c
      · rw [if_pos ha] at h
        cases h
        exact ⟨[], s, by simp [ha], rfl, (lastIndexOfChar_eq_none_iff c s).mp hs⟩
      · rw [if_neg ha] at h
        cases h
    · rw [lastIndexOfChar, hs] at h
      cases h
      obtain ⟨x, y, hxy, hlen, hy⟩ := ih j hs
      exact ⟨a :: x, y, by simp [hxy], by simp [hlen], hy⟩

theorem indexOfChar_eq_none_iff (c : Char) (l : List Char) :
    indexOfChar c l = none ↔ hasChar c l = false := by
  induction l with
  | nil => simp [indexOfChar, hasChar]
  | cons x l ih =>
    by_cases hx : x = c <;>
      simp [indexOfChar, hasChar, hx, ← ih]

theorem indexOfChar_append (c : Char) (a b : List Char) (h : hasChar c a = false) :
    indexOfChar c (a ++ c :: b) = some a.length := by
  induction a with
  | nil => simp [indexOfChar]
  | cons x a ih =>
    rw [hasChar] at h
    by_cases hx : x = c
    · rw [if_pos hx] at h; cases h
    · rw [if_neg hx] at h
      simp [indexOfChar, hx, ih h]

theorem indexOfChar_append_left (c : Char) (a b : List Char) (e : Nat)
    (h : indexOfChar c a = some e) : indexOfChar c (a ++ b) = some e := by
  induction a generalizing e with
  | nil => simp [indexOfChar] at h
  | cons x a ih =>
    by_cases hx : x = c
    · rw [indexOfChar, if_pos hx] at h
      cases h
      simp [indexOfChar, hx]
    · rw [indexOfChar, if_neg hx] at h
      rcases ha : indexOfChar c a with _ | j
      · rw [ha] at h; cases h
      · rw [ha] at h
        cases h
        simp [indexOfChar, hx, ih j ha]

theorem indexOfChar_decomp (c : Char) (l : List Char) :
    ∀ e : Nat, indexOfChar c l = some e →
      ∃ x y, l = x ++ c :: y ∧ x.length = e ∧ hasChar c x = false := by
  induction l with
  | nil => intro e h; simp [indexOfChar] at h
  | cons a s ih =>
    intro e h
    by_cases ha : a = c
    · rw [indexOfChar, if_pos ha] at h
      cases h
      subst ha
      exact ⟨[], s, rfl, rfl, rfl⟩
    · rw [indexOfChar, if_neg ha] at h
      rcases hs : indexOfChar c s with _ | j
      · rw [hs] at h; cases h
      · rw [hs] at h
        cases h
        obtain ⟨x, y, hxy, hlen, hx⟩ := ih j hs
        exact ⟨a :: x, y, by simp [hxy], by simp [hlen], by simp [hasChar, ha, hx]⟩

theorem containsBrColon_br (x y : List Char) :
    containsBrColon (x ++ ']' :: ':' :: y) = true := by
  induction x with
  | nil => simp [containsBrColon]
  | cons a x ih =>
    rcases hx : x ++ ']' :: ':' :: y with _ | ⟨b, s⟩
    · exact absurd hx (by simp)
    · have hcons : a :: x ++ ']' :: ':' :: y = a :: b :: s := by rw [List.cons_append, hx]
      rw [hcons, containsBrColon]
      rw [hx] at ih
      rw [ih]
      exact ite_self true

/-! ### Computation rules for `splitHostPort` -/

theorem splitHostPort_plain (a b : List Char)
    (ha1 : hasChar ':' a = false) (ha2 : hasChar '[' a = false) (ha3 : hasChar ']' a = false)
    (hb1 : hasChar ':' b = false) (hb2 : hasChar '[' b = false) (hb3 : hasChar ']' b = false) :
    splitHostPort (a ++ ':' :: b) = some (a, b) := by
  have hlast : lastIndexOfChar ':' (a ++ ':' :: b) = some a.length :=
    lastIndexOfChar_append ':' a b hb1
  have hhead : ¬ (a ++ ':' :: b).head? = some '[' := by
    cases a with
    | nil => simp
    | cons x a' =>
      by_cases hx : x = '['
      · simp [hasChar, hx] at ha2
      · simp [hx]
  have hhead' : ¬ a.head? = some '[' := by
    cases a with
    | nil => simp
    | cons x a' =>
      by_cases hx : x = '['
      · simp [hasChar, hx] at ha2
      · simp [hx]
  simp [splitHostPort, hlast, hhead, hhead', take_len_append, drop_len_succ_append,
    hasChar_append, hasChar, ha1, ha2, ha3, hb2, hb3]

theorem splitHostPort_bracket (a b : List Char)
    (ha2 : hasChar '[' a = false) (ha3 : hasChar ']' a = false)
    (hb1 : hasChar ':' b = false) (hb2 : hasChar '[' b = false) (hb3 : hasChar ']' b = false) :
    splitHostPort ('[' :: a ++ ']' :: ':' :: b) = some (a, b) := by
  have e1 : '[' :: a ++ ']' :: ':' :: b = ('[' :: a ++ [']']) ++ ':' :: b := by simp
  have hlast : lastIndexOfChar ':' ('[' :: a ++ ']' :: ':' :: b) = some (a.length + 2) := by
    rw [e1]
    have h := lastIndexOfChar_append ':' ('[' :: a ++ [']']) b hb1
    simpa using h
  have he : indexOfChar ']' ('[' :: a ++ ']' :: ':' :: b) = some (a.length + 1) := by
    have h := indexOfChar_append ']' ('[' :: a) (':' :: b)
      (by simp [hasChar, ha3])
    simpa using h
  have htake : ('[' :: a ++ ']' :: ':' :: b).take (a.length + 1) = '[' :: a := by
    simp [take_len_append]
  have hdrop1 : ('[' :: a ++ ']' :: ':' :: b).drop (a.length + 2) = ':' :: b := by
    rw [e1]
    simp [drop_len_append]
  have hdrop2 : ('[' :: a ++ ']' :: ':' :: b).drop (a.length + 3) = b := by
    rw [e1]
    simp [drop_len_succ_append]
  have hd1 : List.drop 1 ('[' :: a ++ ']' :: ':' :: b) = a ++ ']' :: ':' :: b := by simp
  simp only [splitHostPort, hlast]
  rw [if_pos (by simp)]
  simp only [he]
  have h3 : a.length + 1 + 1 = a.length + 2 := rfl
  have h4 : a.length + 2 + 1 = a.length + 3 := rfl
  simp only [h3, h4, hd1, hdrop1, hdrop2, htake]
  simp [hasChar_append, hasChar, ha2, hb2, hb3]

/-- Inversion principle for a successful `splitHostPort`: the input is either a
plain `host:port` (host free of colons and brackets) or a bracketed
`[host]:port` (host free of brackets). -/
theorem splitHostPort_inv (host h pt : List Char)
    (hsp : splitHostPort host = some (h, pt)) :
    (hasChar ':' pt = false ∧ hasChar '[' pt = false ∧ hasChar ']' pt = false) ∧
      ((hasChar ':' h = false ∧ hasChar '[' h = false ∧ hasChar ']' h = false ∧
          host = h ++ ':' :: pt) ∨
        (hasChar '[' h = false ∧ hasChar ']' h = false ∧
          host = '[' :: h ++ ']' :: ':' :: pt)) := by
  rcases hlast : lastIndexOfChar ':' host with _ | i
  · rw [splitHostPort, hlast] at hsp
    cases hsp
  obtain ⟨x, y, hxy, hxlen, hy⟩ := lastIndexOfChar_decomp ':' host i hlast
  simp only [splitHostPort, hlast] at hsp
  by_cases hhd : host.head? = some '['
  · -- bracketed branch
    rw [if_pos hhd] at hsp
    rcases he : indexOfChar ']' host with _ | e
    · rw [he] at hsp; cases hsp
    simp only [he] at hsp
    obtain ⟨w, z, hwz, hwlen, hw⟩ := indexOfChar_decomp ']' host e he
    by_cases h1 : e + 1 = host.length
    · rw [if_pos h1] at hsp; cases hsp
    rw [if_neg h1] at hsp
    by_cases h2 : e + 1 = i
    · rw [if_pos h2] at hsp
      by_cases h3 : hasChar '[' (host.drop 1) = true
      · rw [if_pos h3] at hsp; cases hsp
      rw [if_neg h3] at hsp
      by_cases h4 : hasChar ']' (host.drop (e + 1)) = true
      · rw [if_pos h4] at hsp; cases hsp
      rw [if_neg h4] at hsp
      -- align the two decompositions
      have hz : host.drop (e + 1) = z := by
        rw [hwz, ← hwlen]
        exact drop_len_succ_append w z ']'
      have hz' : host.drop (e + 1) = ':' :: y := by
        rw [h2, ← hxlen, hxy]
        exact drop_len_append x (':' :: y)
      have hzy : z = ':' :: y := by rw [← hz, hz']
      -- w is nonempty and starts with '['
      rcases hwcase : w with _ | ⟨c, w3⟩
      · rw [hwcase] at hwz
        rw [hwz] at hhd
        simp at hhd
      have hc : c = '[' := by
        rw [hwcase] at hwz
        rw [hwz] at hhd
        simp at hhd
        exact hhd
      rw [hwcase, hc] at hwz hwlen hw
      -- host = '[' :: w3 ++ ']' :: ':' :: y
      have hhost : host = '[' :: w3 ++ ']' :: ':' :: y := by
        rw [hwz, hzy]
      -- compute h and pt
      have htake : host.take e = '[' :: w3 := by
        rw [hwz, ← hwlen]
        exact take_len_append ('[' :: w3) (']' :: z)
      have hpt : host.drop (i + 1) = y := by
        rw [hxy, ← hxlen]
        exact drop_len_succ_append x y ':'
      rw [htake, hpt] at hsp
      have hh : h = w3 := by
        cases hsp
        rfl
      have hpt2 : pt = y := by
        cases hsp
        rfl
      -- character conditions
      have hdrop1 : host.drop 1 = w3 ++ ']' :: ':' :: y := by
        rw [hhost]
        rfl
      have hbr2 : hasChar '[' w3 = false ∧ hasChar '[' y = false := by
        rw [hdrop1] at h3
        simpa [hasChar_append, hasChar] using h3
      have hycl : hasChar ']' y = false := by
        rw [hz'] at h4
        simpa [hasChar] using h4
      have hw3cl : hasChar ']' w3 = false := by
        simpa [hasChar] using hw
      subst hh hpt2
      exact ⟨⟨hy, hbr2.2, hycl⟩, Or.inr ⟨hbr2.1, hw3cl, hhost⟩⟩
    · rw [if_neg h2] at hsp
      cases hsp
  · -- plain branch
    rw [if_neg hhd] at hsp
    by_cases h1 : hasChar ':' (host.take i) = true
    · rw [if_pos h1] at hsp; cases hsp
    rw [if_neg h1] at hsp
    by_cases h2 : hasChar '[' host = true
    · rw [if_pos h2] at hsp; cases hsp
    rw [if_neg h2] at hsp
    by_cases h3 : hasChar ']' host = true
    · rw [if_pos h3] at hsp; cases hsp
    rw [if_neg h3] at hsp
    have htake : host.take i = x := by
      rw [hxy, ← hxlen]
      exact take_len_append x (':' :: y)
    have hdrop : host.drop (i + 1) = y := by
      rw [hxy, ← hxlen]
      exact drop_len_succ_append x y ':'
    rw [htake, hdrop] at hsp
    have hh : h = x := by cases hsp; rfl
    have hpt2 : pt = y := by cases hsp; rfl
    rw [htake] at h1
    have h1' : hasChar ':' x = false := by simpa using h1
    rw [hxy] at h2 h3
    have h2' : hasChar '[' x = false ∧ hasChar '[' y = false := by
      simpa [hasChar_append, hasChar] using h2
    have h3' : hasChar ']' x = false ∧ hasChar ']' y = false := by
      simpa [hasChar_append, hasChar] using h3
    rw [hh, hpt2]
    exact ⟨⟨hy, h2'.2, h3'.2⟩, Or.inl ⟨h1', h2'.1, h3'.1, hxy⟩⟩

/-! ### Fixed points of `canonicalAddress` -/

theorem canonicalAddress_fix_plain (scheme : String) (a b : List Char)
    (ha1 : hasChar ':' a = false) (ha2 : hasChar '[' a = false) (ha3 : hasChar ']' a = false)
    (hb1 : hasChar ':' b = false) (hb2 : hasChar '[' b = false) (hb3 : hasChar ']' b = false)
    (hbne : b ≠ []) :
    canonicalAddress scheme (a ++ ':' :: b) = a ++ ':' :: b := by
  have hcount : countChar ':' (a ++ ':' :: b) = 1 := by
    rw [countChar_append]
    have h1 : countChar ':' a = 0 := (hasChar_eq_false_iff ':' a).mp ha1
    have h2 : countChar ':' b = 0 := (hasChar_eq_false_iff ':' b).mp hb1
    simp [countChar, h1, h2]
  rw [canonicalAddress, if_pos (Or.inl hcount)]
  simp only [splitHostPort_plain a b ha1 ha2 ha3 hb1 hb2 hb3]
  rw [if_neg hbne]
  simp [joinHostPort, ha1]

theorem canonicalAddress_fix_bracket (scheme : String) (a b : List Char)
    (ha1 : hasChar ':' a = true) (ha2 : hasChar '[' a = false) (ha3 : hasChar ']' a = false)
    (hb1 : hasChar ':' b = false) (hb2 : hasChar '[' b = false) (hb3 : hasChar ']' b = false)
    (hbne : b ≠ []) :
    canonicalAddress scheme ('[' :: a ++ ']' :: ':' :: b) = '[' :: a ++ ']' :: ':' :: b := by
  have hcount : 2 ≤ countChar ':' ('[' :: a ++ ']' :: ':' :: b) := by
    rw [countChar_append]
    have h1 : 1 ≤ countChar ':' a := (one_le_countChar_iff ':' a).mp ha1
    have h2 : countChar ':' ('[' :: a) = countChar ':' a := by simp [countChar]
    have h3 : 1 ≤ countChar ':' (']' :: ':' :: b) := by simp [countChar]
    omega
  have hcontains : containsBrColon ('[' :: a ++ ']' :: ':' :: b) = true := by
    have h := containsBrColon_br ('[' :: a) b
    simpa using h
  rw [canonicalAddress, if_pos (Or.inr ⟨hcount, hcontains⟩)]
  simp only [splitHostPort_bracket a b ha2 ha3 hb1 hb2 hb3]
  rw [if_neg hbne]
  simp [joinHostPort, ha1]

/-! ### Failure cases of `splitHostPort` on canonicalized forms -/

theorem splitHostPort_none_headNotBr (host p : List Char)
    (hc : hasChar ':' host = false) (hp1 : hasChar ':' p = false)
    (hhd : ¬ host.head? = some '[')
    (hbr : hasChar '[' host = true ∨ hasChar ']' host = true) :
    splitHostPort (host ++ ':' :: p) = none := by
  have hlast := lastIndexOfChar_append ':' host p hp1
  have hhd2 : ¬ (host ++ ':' :: p).head? = some '[' := by
    cases host with
    | nil => simp
    | cons x t => simpa using hhd
  simp only [splitHostPort, hlast]
  rw [if_neg hhd2]
  rw [take_len_append]
  rw [if_neg (by simp [hc])]
  rcases hbr with hbr | hbr
  · have hx : hasChar '[' (host ++ ':' :: p) = true := by
      rw [hasChar_append, hbr]
      rfl
    rw [if_pos hx]
  · by_cases hbr2 : hasChar '[' (host ++ ':' :: p) = true
    · rw [if_pos hbr2]
    · rw [if_neg hbr2]
      have hx : hasChar ']' (host ++ ':' :: p) = true := by
        rw [hasChar_append, hbr]
        rfl
      rw [if_pos hx]

theorem splitHostPort_none_noClose (host p : List Char)
    (hp1 : hasChar ':' p = false) (hp3 : hasChar ']' p = false)
    (hhd : host.head? = some '[')
    (hnocl : hasChar ']' host = false) :
    splitHostPort (host ++ ':' :: p) = none := by
  have hlast := lastIndexOfChar_append ':' host p hp1
  have hhd2 : (host ++ ':' :: p).head? = some '[' := by
    cases host with
    | nil => simp at hhd
    | cons x t => simpa using hhd
  have hie : indexOfChar ']' (host ++ ':' :: p) = none := by
    rw [indexOfChar_eq_none_iff, hasChar_append]
    simp [hnocl, hasChar, hp3]
  simp only [splitHostPort, hlast]
  rw [if_pos hhd2]
  simp [hie]

theorem splitHostPort_none_midClose (host p : List Char) (q : Nat)
    (hc : hasChar ':' host = false) (hp1 : hasChar ':' p = false)
    (hhd : host.head? = some '[')
    (he : indexOfChar ']' host = some q)
    (hq : ¬ q + 1 = host.length) :
    splitHostPort (host ++ ':' :: p) = none := by
  have hlast := lastIndexOfChar_append ':' host p hp1
  have hhd2 : (host ++ ':' :: p).head? = some '[' := by
    cases host with
    | nil => simp at hhd
    | cons x t => simpa using hhd
  have hie : indexOfChar ']' (host ++ ':' :: p) = some q :=
    indexOfChar_append_left ']' host (':' :: p) q he
  have hqlt : q + 1 ≤ host.length := by
    obtain ⟨w, z, hwz, hwlen, _⟩ := indexOfChar_decomp ']' host q he
    rw [hwz, ← hwlen]
    simp
  simp only [splitHostPort, hlast]
  rw [if_pos hhd2]
  simp only [hie]
  rw [if_neg (by simp; omega)]
  rw [if_neg hq]

theorem splitHostPort_none_innerBr (host p : List Char) (q : Nat)
    (hc : hasChar ':' host = false) (hp1 : hasChar ':' p = false)
    (hhd : host.head? = some '[')
    (he : indexOfChar ']' host = some q)
    (hq : q + 1 = host.length)
    (hbr : hasChar '[' (host.drop 1) = true) :
    splitHostPort (host ++ ':' :: p) = none := by
  have hlast := lastIndexOfChar_append ':' host p hp1
  have hhd2 : (host ++ ':' :: p).head? = some '[' := by
    cases host with
    | nil => simp at hhd
    | cons x t => simpa using hhd
  have hie : indexOfChar ']' (host ++ ':' :: p) = some q :=
    indexOfChar_append_left ']' host (':' :: p) q he
  have hdrop : hasChar '[' ((host ++ ':' :: p).drop 1) = true := by
    cases host with
    | nil => simp at hhd
    | cons x t =>
      have ht : hasChar '[' t = true := by simpa using hbr
      simp only [List.cons_append, List.drop_succ_cons, List.drop_zero]
      rw [hasChar_append, ht]
      rfl
  simp only [splitHostPort, hlast]
  rw [if_pos hhd2]
  simp only [hie]
  rw [if_neg (by simp; omega)]
  rw [if_pos hq]
  rw [if_pos hdrop]

theorem splitHostPort_none_brWrap_mid (host p : List Char) (q : Nat)
    (hp1 : hasChar ':' p = false)
    (he : indexOfChar ']' host = some q) :
    splitHostPort ('[' :: host ++ ']' :: ':' :: p) = none := by
  have e1 : '[' :: host ++ ']' :: ':' :: p = ('[' :: host ++ [']']) ++ ':' :: p := by simp
  have hlast : lastIndexOfChar ':' ('[' :: host ++ ']' :: ':' :: p) = some (host.length + 2) := by
    rw [e1]
    have h := lastIndexOfChar_append ':' ('[' :: host ++ [']']) p hp1
    simpa using h
  have hie : indexOfChar ']' ('[' :: host ++ ']' :: ':' :: p) = some (q + 1) := by
    have t1 : indexOfChar ']' (host ++ ']' :: ':' :: p) = some q :=
      indexOfChar_append_left ']' host (']' :: ':' :: p) q he
    simp [indexOfChar, t1]
  have hqlt : q + 1 ≤ host.length := by
    obtain ⟨w, z, hwz, hwlen, _⟩ := indexOfChar_decomp ']' host q he
    rw [hwz, ← hwlen]
    simp
  simp only [splitHostPort, hlast]
  rw [if_pos (by simp)]
  simp only [hie]
  rw [if_neg (by simp; omega)]
  rw [if_neg (by omega)]

theorem splitHostPort_none_brWrap_inner (host p : List Char)
    (hp1 : hasChar ':' p = false)
    (hnocl : hasChar ']' host = false) (hbr : hasChar '[' host = true) :
    splitHostPort ('[' :: host ++ ']' :: ':' :: p) = none := by
  have e1 : '[' :: host ++ ']' :: ':' :: p = ('[' :: host ++ [']']) ++ ':' :: p := by simp
  have hlast : lastIndexOfChar ':' ('[' :: host ++ ']' :: ':' :: p) = some (host.length + 2) := by
    rw [e1]
    have h := lastIndexOfChar_append ':' ('[' :: host ++ [']']) p hp1
    simpa using h
  have hie : indexOfChar ']' ('[' :: host ++ ']' :: ':' :: p) = some (host.length + 1) := by
    have h := indexOfChar_append ']' ('[' :: host) (':' :: p)
      (by simp [hasChar, hnocl])
    simpa using h
  have hdrop : hasChar '[' (('[' :: host ++ ']' :: ':' :: p).drop 1) = true := by
    simp only [List.cons_append, List.drop_succ_cons, List.drop_zero]
    rw [hasChar_append, hbr]
    rfl
  simp only [splitHostPort, hlast]
  rw [if_pos (by simp)]
  simp only [hie]
  rw [if_pos trivial]
  rw [if_pos hdrop]
  simp

/-- The host strings on which canonicalization is NOT idempotent: a leading
`'['`, no colon, no further `'['`, and the first `']'` as final character
(a "bracketed bare name" such as `[example]`). -/
def bracketedBare (host : List Char) : Bool :=
  host.head? == some '[' && !hasChar ':' host && !hasChar '[' (host.drop 1) &&
    indexOfChar ']' host == some (host.length - 1)

/-- Idempotency of `canonicalAddress` away from the `bracketedBare` class. -/
theorem canonicalAddress_idem_aux (scheme : String)
    (hs : scheme = "http" ∨ scheme = "https")
    (host : List Char) (hF : bracketedBare host = false) :
    canonicalAddress scheme (canonicalAddress scheme host) = canonicalAddress scheme host := by
  have hp1 : hasChar ':' (portMap scheme) = false := by
    rcases hs with h | h <;> rw [h] <;> decide
  have hp2 : hasChar '[' (portMap scheme) = false := by
    rcases hs with h | h <;> rw [h] <;> decide
  have hp3 : hasChar ']' (portMap scheme) = false := by
    rcases hs with h | h <;> rw [h] <;> decide
  have hp4 : portMap scheme ≠ [] := by
    rcases hs with h | h <;> rw [h] <;> decide
  by_cases hcond : countChar ':' host = 1 ∨
      (2 ≤ countChar ':' host ∧ containsBrColon host = true)
  · rcases hsp : splitHostPort host with _ | ⟨h, pt⟩
    · have hfix : canonicalAddress scheme host = host := by
        rw [canonicalAddress, if_pos hcond]
        simp only [hsp]
      rw [hfix]
      exact hfix
    · obtain ⟨⟨hpt1, hpt2, hpt3⟩, hcases⟩ := splitHostPort_inv host h pt hsp
      have hcan : canonicalAddress scheme host =
          joinHostPort h (if pt = [] then portMap scheme else pt) := by
        rw [canonicalAddress, if_pos hcond]
        simp only [hsp]
      have hq1 : hasChar ':' (if pt = [] then portMap scheme else pt) = false := by
        by_cases hp : pt = [] <;> simp [hp, hp1, hpt1]
      have hq2 : hasChar '[' (if pt = [] then portMap scheme else pt) = false := by
        by_cases hp : pt = [] <;> simp [hp, hp2, hpt2]
      have hq3 : hasChar ']' (if pt = [] then portMap scheme else pt) = false := by
        by_cases hp : pt = [] <;> simp [hp, hp3, hpt3]
      have hq4 : (if pt = [] then portMap scheme else pt) ≠ [] := by
        by_cases hp : pt = [] <;> simp [hp, hp4]
      rcases hcases with ⟨hh1, hh2, hh3, hhost⟩ | ⟨hh2, hh3, hhost⟩
      · have hjoin : joinHostPort h (if pt = [] then portMap scheme else pt) =
            h ++ ':' :: (if pt = [] then portMap scheme else pt) := by
          simp [joinHostPort, hh1]
        rw [hcan, hjoin]
        exact canonicalAddress_fix_plain scheme h _ hh1 hh2 hh3 hq1 hq2 hq3 hq4
      · by_cases hh1 : hasChar ':' h = true
        · have hjoin : joinHostPort h (if pt = [] then portMap scheme else pt) =
              '[' :: h ++ ']' :: ':' :: (if pt = [] then portMap scheme else pt) := by
            simp [joinHostPort, hh1]
          rw [hcan, hjoin]
          exact canonicalAddress_fix_bracket scheme h _ hh1 hh2 hh3 hq1 hq2 hq3 hq4
        · have hh1' : hasChar ':' h = false := by simpa using hh1
          have hjoin : joinHostPort h (if pt = [] then portMap scheme else pt) =
              h ++ ':' :: (if pt = [] then portMap scheme else pt) := by
            simp [joinHostPort, hh1']
          rw [hcan, hjoin]
          exact canonicalAddress_fix_plain scheme h _ hh1' hh2 hh3 hq1 hq2 hq3 hq4
  · have hcan : canonicalAddress scheme host = joinHostPort host (portMap scheme) := by
      rw [canonicalAddress, if_neg hcond]
    by_cases hc : hasChar ':' host = true
    · -- cond is false but the host holds a colon: the wrapped form re-parses
      have hcount2 : 2 ≤ countChar ':' host := by
        have h1 := (one_le_countChar_iff ':' host).mp hc
        have hne : ¬ countChar ':' host = 1 := fun hx => hcond (Or.inl hx)
        omega
      have hjoin : joinHostPort host (portMap scheme) =
          '[' :: host ++ ']' :: ':' :: portMap scheme := by
        simp [joinHostPort, hc]
      rw [hcan, hjoin]
      by_cases hbr : hasChar '[' host = false ∧ hasChar ']' host = false
      · exact canonicalAddress_fix_bracket scheme host (portMap scheme)
          hc hbr.1 hbr.2 hp1 hp2 hp3 hp4
      · have hcondr : countChar ':' ('[' :: host ++ ']' :: ':' :: portMap scheme) = 1 ∨
            (2 ≤ countChar ':' ('[' :: host ++ ']' :: ':' :: portMap scheme) ∧
              containsBrColon ('[' :: host ++ ']' :: ':' :: portMap scheme) = true) := by
          right
          constructor
          · rw [countChar_append]
            have h2 : countChar ':' ('[' :: host) = countChar ':' host := by simp [countChar]
            have h3 : 1 ≤ countChar ':' (']' :: ':' :: portMap scheme) := by simp [countChar]
            omega
          · have h := containsBrColon_br ('[' :: host) (portMap scheme)
            simpa using h
        have hspn : splitHostPort ('[' :: host ++ ']' :: ':' :: portMap scheme) = none := by
          by_cases hclosed : hasChar ']' host = true
          · obtain ⟨q, hq⟩ : ∃ q, indexOfChar ']' host = some q := by
              rcases hi : indexOfChar ']' host with _ | q
              · rw [indexOfChar_eq_none_iff] at hi
                rw [hi] at hclosed
                cases hclosed
              · exact ⟨q, rfl⟩
            exact splitHostPort_none_brWrap_mid host (portMap scheme) q hp1 hq
          · have hclosed' : hasChar ']' host = false := by simpa using hclosed
            have hbropen : hasChar '[' host = true := by
              rcases hx : hasChar '[' host with _ | _
              · exact absurd ⟨hx, hclosed'⟩ hbr
              · rfl
            exact splitHostPort_none_brWrap_inner host (portMap scheme) hp1 hclosed' hbropen
        rw [canonicalAddress, if_pos hcondr]
        simp only [List.cons_append] at hspn
        simp [hspn]
    · -- colon-free host
      have hc' : hasChar ':' host = false := by simpa using hc
      have hjoin : joinHostPort host (portMap scheme) = host ++ ':' :: portMap scheme := by
        simp [joinHostPort, hc']
      rw [hcan, hjoin]
      by_cases hbr : hasChar '[' host = false ∧ hasChar ']' host = false
      · exact canonicalAddress_fix_plain scheme host (portMap scheme)
          hc' hbr.1 hbr.2 hp1 hp2 hp3 hp4
      · have hcondr : countChar ':' (host ++ ':' :: portMap scheme) = 1 ∨
            (2 ≤ countChar ':' (host ++ ':' :: portMap scheme) ∧
              containsBrColon (host ++ ':' :: portMap scheme) = true) := by
          left
          rw [countChar_append]
          have h1 : countChar ':' host = 0 := (hasChar_eq_false_iff ':' host).mp hc'
          have h2 : countChar ':' (portMap scheme) = 0 := (hasChar_eq_false_iff _ _).mp hp1
          simp [countChar, h1, h2]
        have hspn : splitHostPort (host ++ ':' :: portMap scheme) = none := by
          by_cases hhd : host.head? = some '['
          · by_cases hclosed : hasChar ']' host = true
            · obtain ⟨q, hq⟩ : ∃ q, indexOfChar ']' host = some q := by
                rcases hi : indexOfChar ']' host with _ | q
                · rw [indexOfChar_eq_none_iff] at hi
                  rw [hi] at hclosed
                  cases hclosed
                · exact ⟨q, rfl⟩
              by_cases hqlen : q + 1 = host.length
              · by_cases hibr : hasChar '[' (host.drop 1) = true
                · exact splitHostPort_none_innerBr host (portMap scheme) q
                    hc' hp1 hhd hq hqlen hibr
                · exfalso
                  have hibr' : hasChar '[' (host.drop 1) = false := by simpa using hibr
                  have hbb : bracketedBare host = true := by
                    have hq' : q = host.length - 1 := by omega
                    rw [bracketedBare, hhd, hc', hibr', hq, hq']
                    simp
                  rw [hbb] at hF
                  cases hF
              · exact splitHostPort_none_midClose host (portMap scheme) q
                  hc' hp1 hhd hq hqlen
            · have hclosed' : hasChar ']' host = false := by simpa using hclosed
              exact splitHostPort_none_noClose host (portMap scheme) hp1 hp3 hhd hclosed'
          · have hbr2 : hasChar '[' host = true ∨ hasChar ']' host = true := by
              rcases hx : hasChar '[' host with _ | _
              · rcases hy2 : hasChar ']' host with _ | _
                · exact absurd ⟨hx, hy2⟩ hbr
                · exact Or.inr rfl
              · exact Or.inl rfl
            exact splitHostPort_none_headNotBr host (portMap scheme) hc' hp1 hhd hbr2
        rw [canonicalAddress, if_pos hcondr]
        simp [hspn]

/-- On a colon-free host, `canonicalAddress` appends the default port. -/
theorem canonicalAddress_bare (scheme : String) (h : List Char) (hc : countChar ':' h = 0) :
    canonicalAddress scheme h = h ++ ':' :: portMap scheme := by
  have hcond : ¬ (countChar ':' h = 1 ∨
      (2 ≤ countChar ':' h ∧ containsBrColon h = true)) := by
    simp [hc]
  have hc' : hasChar ':' h = false := (hasChar_eq_false_iff ':' h).mpr hc
  rw [canonicalAddress, if_neg hcond]
  simp [joinHostPort, hc']

/-! ## The bearer transport data model -/

/-- Modelled from the spec: the fixed client identifier sent as `User-Agent`
and as the OAuth2 `client_id` (the `transportName` constant of the transport
package, which is outside this file's source). -/
def transportName : String := "go-containerregistry"

/-- `authn.AuthConfig`: the long-lived credential material returned by an
authenticator (modelled from the spec's credential-provider contract; the
`authn` package is outside this file's source). -/
structure AuthConfig where
  username : String := ""
  password : String := ""
  identityToken : String := ""
  registryToken : String := ""
deriving DecidableEq, Repr

/-- Errors are opaque Go `error` values; `checkErr` models the classified
error produced by the `CheckError` collaborator (status and body detail). -/
inductive GoError where
  | msg : String → GoError
  | checkErr : Nat → String → GoError
deriving DecidableEq, Repr

instance {ε α : Type} [DecidableEq ε] [DecidableEq α] : DecidableEq (Except ε α)
  | .error e, .error e' =>
    if h : e = e' then .isTrue (by rw [h]) else .isFalse (by intro hc; cases hc; exact h rfl)
  | .ok a, .ok a' =>
    if h : a = a' then .isTrue (by rw [h]) else .isFalse (by intro hc; cases hc; exact h rfl)
  | .error _, .ok _ => .isFalse (by intro hc; cases hc)
  | .ok _, .error _ => .isFalse (by intro hc; cases hc)

/-- The `bearerTransport` struct of `bearer.go` (lines 30-46).  `basicAuth`
models the outcome of `bt.basic.Authorization()` (the credential provider
collaborator), `bearerToken` the token held by `bt.bearer`. -/
structure BearerTransport where
  basicAuth : Except GoError AuthConfig
  bearerToken : String
  registry : String
  realm : String
  service : String
  scopes : List String
  scheme : String
deriving DecidableEq, Repr

/-- The parts of an `http.Request` that `bearer.go` reads or writes. -/
structure HTTPRequest where
  host : String
  urlHost : String
  urlScheme : String
  authHeader : Option String
  userAgent : Option String
deriving DecidableEq, Repr

/-- The parts of an `http.Response` that `bearer.go` reads. -/
structure HTTPResponse where
  statusCode : Nat
  body : String
deriving DecidableEq, Repr

/-- The header/scheme mutation performed by the `sendRequest` closure of
`bearerTransport.RoundTrip` (lines 57-83) before calling the inner
transport: conditional `Authorization` and scheme override, unconditional
`User-Agent`. -/
def applyAuth (bt : BearerTransport) (req : HTTPRequest) : HTTPRequest :=
  let canonicalHeaderHost := canonicalAddressS bt.scheme req.host
  let canonicalURLHost := canonicalAddressS bt.scheme req.urlHost
  let canonicalRegistryHost := canonicalAddressS bt.scheme bt.registry
  let req :=
    if canonicalHeaderHost = canonicalRegistryHost ∨ canonicalURLHost = canonicalRegistryHost then
      { req with authHeader := some ("Bearer " ++ bt.bearerToken), urlScheme := bt.scheme }
    else req
  { req with userAgent := some transportName }

/-- The two token-acquisition flows of the transport. -/
inductive TokenFlow where
  | basicF : TokenFlow
  | oauthF : TokenFlow
deriving DecidableEq, Repr

/-- The first/second flow selection of `bearerTransport.refresh`
(lines 106-117): OAuth2 first exactly when an identity token is present. -/
def flowOrder (auth : AuthConfig) : TokenFlow × TokenFlow :=
  if auth.identityToken ≠ "" then (TokenFlow.oauthF, TokenFlow.basicF) else (TokenFlow.basicF, TokenFlow.oauthF)

/-- The decoded `tokenResponse` JSON struct of `refresh` (lines 134-139). -/
structure TokenResponse where
  token : String := ""
  accessToken : String := ""
  refreshToken : String := ""
deriving DecidableEq, Repr

/-- Environment for `refresh`: the outcome of each token flow's network
exchange, and of `json.Unmarshal` on a response body. -/
structure RefreshOracle where
  flowRes : TokenFlow → Except GoError String
  parse : String → Except GoError TokenResponse

/-- The anonymous fallback closure of `refresh` (lines 119-128): try the
first flow, fall back to the second on error; also records which flows
were attempted, in order. -/
def tryFlows (o : RefreshOracle) (fs : TokenFlow × TokenFlow) :
    Except GoError String × List TokenFlow :=
  match o.flowRes fs.1 with
  | .ok b => (.ok b, [fs.1])
  | .error _ =>
    match o.flowRes fs.2 with
    | .ok b => (.ok b, [fs.1, fs.2])
    | .error e => (.error e, [fs.1, fs.2])

/-- Result of `refresh`: the transport state after the call (unchanged when
an error is returned, mirroring that every `return err` in the Go code
precedes the field assignments), the returned error if any, and the flows
attempted. -/
structure RefreshOut where
  bt : BearerTransport
  err : Option GoError
  attempts : List TokenFlow
deriving Repr

/-- `bearerTransport.refresh` (lines 105-169).  On success the stored bearer
token is replaced; when the response carries a `refresh_token`, the stored
long-lived credential is replaced by an identity-token credential built from
it (`authn.FromConfig`, modelled from the spec's credential contract). -/
def refresh (bt : BearerTransport) (o : RefreshOracle) : RefreshOut :=
  match bt.basicAuth with
  | .error e => ⟨bt, some e, []⟩
  | .ok auth =>
    let fs := flowOrder auth
    match tryFlows o fs with
    | (.error e, attempts) => ⟨bt, some e, attempts⟩
    | (.ok content, attempts) =>
      match o.parse content with
      | .error e => ⟨bt, some e, attempts⟩
      | .ok response0 =>
        let response :=
          if response0.accessToken ≠ "" then
            { response0 with token := response0.accessToken }
          else response0
        if response.token ≠ "" then
          let newBasic :=
            if response.refreshToken ≠ "" then
              Except.ok { username := "", password := "",
                          identityToken := response.refreshToken, registryToken := "" }
            else bt.basicAuth
          ⟨{ bt with basicAuth := newBasic, bearerToken := response.token },
            none, attempts⟩
        else
          ⟨bt, some (.msg ("no token in bearer response:\n" ++ content)), attempts⟩

/-- Events observable in a `RoundTrip` call: the n-th send through the inner
transport, or a refresh. -/
inductive Ev where
  | send : Nat → Ev
  | refreshEv : Ev
deriving DecidableEq, Repr

/-- `bearerTransport.RoundTrip` (lines 56-99): send once; on a 401 refresh
once and resend the (already header-mutated) request once, returning the
second outcome as is.  `inner n` is the inner transport's answer to the
n-th send.  Also returns the trace of events. -/
def roundTrip (bt : BearerTransport) (req : HTTPRequest)
    (inner : Nat → HTTPRequest → Except GoError HTTPResponse) (o : RefreshOracle) :
    Except GoError HTTPResponse × List Ev :=
  let req1 := applyAuth bt req
  match inner 0 req1 with
  | .error e => (.error e, [Ev.send 0])
  | .ok res =>
    if res.statusCode = 401 then
      let ro := refresh bt o
      match ro.err with
      | some e => (.error e, [Ev.send 0, Ev.refreshEv])
      | none => (inner 1 (applyAuth ro.bt req1), [Ev.send 0, Ev.refreshEv, Ev.send 1])
    else (.ok res, [Ev.send 0])

/-! ## The OAuth2 token fetcher -/

/-- The outcome of Go `url.Parse` on the realm, reduced to what
`refreshOauth` uses: the query-free part and the raw query string. -/
structure ParsedURL where
  base : String
  rawQuery : String
deriving DecidableEq, Repr

/-- Models `net/url` `URL.String()` on a parsed URL: the query string is
reattached after a `'?'` exactly when it is non-empty. -/
def urlString (u : ParsedURL) : String :=
  if u.rawQuery = "" then u.base else u.base ++ "?" ++ u.rawQuery

/-- Modelled from the spec: the error-classifier collaborator `CheckError`
(outside this file's source) returns no error exactly on the expected
status and otherwise a classified error carrying status and body. -/
def checkError (resp : HTTPResponse) (expected : Nat) : Option GoError :=
  if resp.statusCode = expected then none else some (.checkErr resp.statusCode resp.body)

/-- The POST issued by `refreshOauth`: target URL and form values, in the
order the Go code sets them. -/
structure OauthCall where
  target : String
  form : List (String × String)
deriving DecidableEq, Repr

/-- The form built by `refreshOauth` (lines 208-220): `scope`, `service`
and `client_id` always; grant-specific fields only when an identity token
or a full username/password pair is present. -/
def oauthForm (bt : BearerTransport) (auth : AuthConfig) : List (String × String) :=
  let v := [("scope", String.intercalate " " bt.scopes),
            ("service", bt.service),
            ("client_id", transportName)]
  if auth.identityToken ≠ "" then
    v ++ [("grant_type", "refresh_token"), ("refresh_token", auth.identityToken)]
  else if auth.username ≠ "" ∧ auth.password ≠ "" then
    v ++ [("grant_type", "password"), ("username", auth.username),
          ("password", auth.password), ("access_type", "offline")]
  else v

/-- Environment for `refreshOauth`: the outcome of `url.Parse` on a realm
string and of the form POST through the wrapped client. -/
structure OauthOracle where
  parseURL : String → Except GoError ParsedURL
  postForm : String → List (String × String) → Except GoError HTTPResponse

/-- `bearerTransport.refreshOauth` (lines 197-234): parse the realm, build
the form, POST it to the serialized parsed URL, require status 200 via the
classifier, and return the raw body.  The second component records the POST
that was issued, if any. -/
def refreshOauth (bt : BearerTransport) (o : OauthOracle) :
    Except GoError String × Option OauthCall :=
  match bt.basicAuth with
  | .error e => (.error e, none)
  | .ok auth =>
    match o.parseURL bt.realm with
    | .error e => (.error e, none)
    | .ok u =>
      let call : OauthCall := ⟨urlString u, oauthForm bt auth⟩
      match o.postForm call.target call.form with
      | .error e => (.error e, some call)
      | .ok resp =>
        match checkError resp 200 with
        | some e => (.error e, some call)
        | none => (.ok resp.body, some call)

/-! ## Concrete fixtures used by the witnesses -/

def wAuth : AuthConfig :=
  { username := "", password := "", identityToken := "idtok", registryToken := "" }

def wBT : BearerTransport :=
  { basicAuth := .ok wAuth, bearerToken := "tok",
    registry := "registry.example.com", realm := "https://auth.example.com/token",
    service := "registry.example.com", scopes := ["repository.foo.pull"],
    scheme := "https" }

def wReq : HTTPRequest :=
  { host := "registry.example.com", urlHost := "registry.example.com",
    urlScheme := "https", authHeader := none, userAgent := none }

def wOracle : RefreshOracle :=
  { flowRes := fun f => match f with
      | TokenFlow.oauthF => .ok "rawbody"
      | TokenFlow.basicF => .error (.msg "basic failed"),
    parse := fun s =>
      if s = "rawbody" then .ok { token := "", accessToken := "A", refreshToken := "R" }
      else .error (.msg "bad json") }

def wOracleFail : RefreshOracle :=
  { flowRes := fun f => match f with
      | TokenFlow.oauthF => .error (.msg "first error")
      | TokenFlow.basicF => .error (.msg "second error"),
    parse := fun _ => .error (.msg "unused") }

def wInner : Nat → HTTPRequest → Except GoError HTTPResponse := fun n _ =>
  if n = 0 then .ok { statusCode := 401, body := "" }
  else .ok { statusCode := 200, body := "done" }

/-! ## The claims -/

/-- C1: for every outgoing request, the dispatcher sets the `Authorization`
header to `Bearer <token>` and overwrites the URL scheme with the target
scheme exactly when the canonical form of the request `Host` or of the URL
host equals the canonical form of the registry host; otherwise both the
`Authorization` header and the scheme are left unchanged. -/
theorem c1_dispatcher_host_match (bt : BearerTransport) (req : HTTPRequest) :
    ((canonicalAddressS bt.scheme req.host = canonicalAddressS bt.scheme bt.registry ∨
        canonicalAddressS bt.scheme req.urlHost = canonicalAddressS bt.scheme bt.registry) →
      (applyAuth bt req).authHeader = some ("Bearer " ++ bt.bearerToken) ∧
        (applyAuth bt req).urlScheme = bt.scheme) ∧
    (¬ (canonicalAddressS bt.scheme req.host = canonicalAddressS bt.scheme bt.registry ∨
        canonicalAddressS bt.scheme req.urlHost = canonicalAddressS bt.scheme bt.registry) →
      (applyAuth bt req).authHeader = req.authHeader ∧
        (applyAuth bt req).urlScheme = req.urlScheme) := by
  constructor
  · intro hmatch
    simp only [applyAuth]
    rw [if_pos hmatch]
    exact ⟨rfl, rfl⟩
  · intro hmatch
    simp only [applyAuth]
    rw [if_neg hmatch]
    exact ⟨rfl, rfl⟩

theorem c1_witness :
    (applyAuth wBT wReq).authHeader = some ("Bearer " ++ wBT.bearerToken) ∧
      (applyAuth wBT wReq).urlScheme = wBT.scheme := by
  have h := (c1_dispatcher_host_match wBT wReq).1 (Or.inl (by decide))
  exact ⟨h.1, h.2⟩

/-- C2: when the first response is exactly 401 and the refresh succeeds,
exactly one refresh and exactly one resend happen and the second attempt's
outcome is returned as is; when the first response is not 401 it is
returned unchanged with no refresh. -/
theorem c2_single_retry (bt : BearerTransport) (req : HTTPRequest)
    (inner : Nat → HTTPRequest → Except GoError HTTPResponse) (o : RefreshOracle)
    (r1 : HTTPResponse) (hfirst : inner 0 (applyAuth bt req) = .ok r1) :
    (r1.statusCode ≠ 401 → roundTrip bt req inner o = (.ok r1, [Ev.send 0])) ∧
    (r1.statusCode = 401 → (refresh bt o).err = none →
      roundTrip bt req inner o =
        (inner 1 (applyAuth (refresh bt o).bt (applyAuth bt req)),
          [Ev.send 0, Ev.refreshEv, Ev.send 1])) := by
  constructor
  · intro h401
    simp only [roundTrip, hfirst]
    rw [if_neg h401]
  · intro h401 herr
    simp only [roundTrip, hfirst]
    rw [if_pos h401]
    simp only [herr]

theorem c2_witness :
    roundTrip wBT wReq wInner wOracle =
      (wInner 1 (applyAuth (refresh wBT wOracle).bt (applyAuth wBT wReq)),
        [Ev.send 0, Ev.refreshEv, Ev.send 1]) := by
  exact (c2_single_retry wBT wReq wInner wOracle { statusCode := 401, body := "" }
    (by decide)).2 (by decide) (by decide)

theorem tryFlows_first_ok (o : RefreshOracle) (fs : TokenFlow × TokenFlow) (b : String)
    (hok : o.flowRes fs.1 = .ok b) :
    tryFlows o fs = (.ok b, [fs.1]) := by
  simp [tryFlows, hok]

theorem tryFlows_fallback_ok (o : RefreshOracle) (fs : TokenFlow × TokenFlow)
    (e : GoError) (b : String)
    (he : o.flowRes fs.1 = .error e) (hok : o.flowRes fs.2 = .ok b) :
    tryFlows o fs = (.ok b, [fs.1, fs.2]) := by
  simp [tryFlows, he, hok]

theorem refresh_attempts_eq (bt : BearerTransport) (o : RefreshOracle) (auth : AuthConfig)
    (hba : bt.basicAuth = .ok auth) :
    (refresh bt o).attempts = (tryFlows o (flowOrder auth)).2 := by
  rcases htf : tryFlows o (flowOrder auth) with ⟨res, att⟩
  rcases res with e | content
  · simp [refresh, hba, htf]
  · rcases hp : o.parse content with e | resp
    · simp [refresh, hba, htf, hp]
    · by_cases h1 : resp.accessToken = ""
      · by_cases h2 : resp.token = "" <;> simp [refresh, hba, htf, hp, h1, h2]
      · simp [refresh, hba, htf, hp, h1]

theorem tryFlows_attempts_len (o : RefreshOracle) (fs : TokenFlow × TokenFlow) :
    (tryFlows o fs).2.length ≤ 2 := by
  rcases h1 : o.flowRes fs.1 with e | b
  · rcases h2 : o.flowRes fs.2 with e2 | b2 <;> simp [tryFlows, h1, h2]
  · simp [tryFlows, h1]

/-- C3: the flow order is OAuth2-first exactly when an identity token is
present (basic-first otherwise), the fallback flow runs only when the first
flow fails, at most two flow attempts occur, and the first successful
flow's body is the one used. -/
theorem c3_flow_order (bt : BearerTransport) (o : RefreshOracle) (auth : AuthConfig)
    (hba : bt.basicAuth = .ok auth) :
    (auth.identityToken ≠ "" → flowOrder auth = (TokenFlow.oauthF, TokenFlow.basicF)) ∧
    (auth.identityToken = "" → flowOrder auth = (TokenFlow.basicF, TokenFlow.oauthF)) ∧
    (refresh bt o).attempts = (tryFlows o (flowOrder auth)).2 ∧
    (refresh bt o).attempts.length ≤ 2 ∧
    (∀ b, o.flowRes (flowOrder auth).1 = .ok b →
      tryFlows o (flowOrder auth) = (.ok b, [(flowOrder auth).1])) ∧
    (∀ e b, o.flowRes (flowOrder auth).1 = .error e →
      o.flowRes (flowOrder auth).2 = .ok b →
      tryFlows o (flowOrder auth) = (.ok b, [(flowOrder auth).1, (flowOrder auth).2])) := by
  refine ⟨?_, ?_, refresh_attempts_eq bt o auth hba, ?_, ?_, ?_⟩
  · intro h
    simp [flowOrder, h]
  · intro h
    simp [flowOrder, h]
  · rw [refresh_attempts_eq bt o auth hba]
    exact tryFlows_attempts_len o (flowOrder auth)
  · intro b hok
    exact tryFlows_first_ok o (flowOrder auth) b hok
  · intro e b he hok
    exact tryFlows_fallback_ok o (flowOrder auth) e b he hok

theorem c3_witness :
    flowOrder wAuth = (TokenFlow.oauthF, TokenFlow.basicF) ∧
      (refresh wBT wOracle).attempts = [TokenFlow.oauthF] ∧
      (refresh wBT wOracle).attempts.length ≤ 2 := by
  have h := c3_flow_order wBT wOracle wAuth (by decide)
  exact ⟨h.1 (by decide), (h.2.2.1).trans (by decide), h.2.2.2.1⟩

/-- C4: a non-empty `access_token` takes precedence over `token` as the new
bearer value; an empty `access_token` with a non-empty `token` yields
`token`; if both are empty the refresh fails with the protocol error that
embeds the raw response body. -/
theorem c4_token_precedence (bt : BearerTransport) (o : RefreshOracle) (auth : AuthConfig)
    (content : String) (att : List TokenFlow) (resp : TokenResponse)
    (hba : bt.basicAuth = .ok auth)
    (htf : tryFlows o (flowOrder auth) = (.ok content, att))
    (hp : o.parse content = .ok resp) :
    (resp.accessToken ≠ "" →
      (refresh bt o).err = none ∧ (refresh bt o).bt.bearerToken = resp.accessToken) ∧
    (resp.accessToken = "" → resp.token ≠ "" →
      (refresh bt o).err = none ∧ (refresh bt o).bt.bearerToken = resp.token) ∧
    (resp.accessToken = "" → resp.token = "" →
      (refresh bt o).err = some (.msg ("no token in bearer response:\n" ++ content))) := by
  refine ⟨?_, ?_, ?_⟩
  · intro h1
    constructor <;> simp [refresh, hba, htf, hp, h1]
  · intro h1 h2
    constructor <;> simp [refresh, hba, htf, hp, h1, h2]
  · intro h1 h2
    simp [refresh, hba, htf, hp, h1, h2]

theorem c4_witness :
    (refresh wBT wOracle).err = none ∧ (refresh wBT wOracle).bt.bearerToken = "A" := by
  have h := c4_token_precedence wBT wOracle wAuth "rawbody" [TokenFlow.oauthF]
    { token := "", accessToken := "A", refreshToken := "R" } (by decide) (by decide) (by decide)
  exact h.1 (by decide)

/-- C5: on a successful refresh, a non-empty `refresh_token` in the parsed
response replaces the stored long-lived credential by an identity-token
credential holding exactly that value; an empty or absent `refresh_token`
leaves the stored credential unchanged. -/
theorem c5_refresh_rotation (bt : BearerTransport) (o : RefreshOracle) (auth : AuthConfig)
    (content : String) (att : List TokenFlow) (resp : TokenResponse)
    (hba : bt.basicAuth = .ok auth)
    (htf : tryFlows o (flowOrder auth) = (.ok content, att))
    (hp : o.parse content = .ok resp)
    (hsucc : (refresh bt o).err = none) :
    (resp.refreshToken ≠ "" →
      (refresh bt o).bt.basicAuth =
        .ok { username := "", password := "", identityToken := resp.refreshToken,
              registryToken := "" }) ∧
    (resp.refreshToken = "" → (refresh bt o).bt.basicAuth = bt.basicAuth) := by
  constructor
  · intro hr
    by_cases h1 : resp.accessToken = ""
    · by_cases h2 : resp.token = ""
      · exfalso
        simp [refresh, hba, htf, hp, h1, h2] at hsucc
      · simp [refresh, hba, htf, hp, h1, h2, hr]
    · simp [refresh, hba, htf, hp, h1, hr]
  · intro hr
    by_cases h1 : resp.accessToken = ""
    · by_cases h2 : resp.token = ""
      · exfalso
        simp [refresh, hba, htf, hp, h1, h2] at hsucc
      · simp [refresh, hba, htf, hp, h1, h2, hr]
    · simp [refresh, hba, htf, hp, h1, hr]

theorem c5_witness :
    (refresh wBT wOracle).bt.basicAuth =
      .ok { username := "", password := "", identityToken := "R", registryToken := "" } := by
  have h := c5_refresh_rotation wBT wOracle wAuth "rawbody" [TokenFlow.oauthF]
    { token := "", accessToken := "A", refreshToken := "R" }
    (by decide) (by decide) (by decide) (by decide)
  exact h.1 (by decide)

/-- C6 counterexample: canonicalization is NOT idempotent on the bracketed
bare host `"[a]"` — it canonicalizes to `"[a]:80"`, which re-canonicalizes
to `"a:80"`. -/
theorem c6_counterexample :
    ¬ canonicalAddress "http" (canonicalAddress "http" ['[', 'a', ']']) =
        canonicalAddress "http" ['[', 'a', ']'] := by
  decide

/-- C6 (amended): for scheme http or https, canonicalization is idempotent
on every host except the bracketed bare names (`bracketedBare`), and for a
colon-free hostname outside that class, the hostname and the hostname
followed by `':'` and the scheme's default port canonicalize identically. -/
theorem c6_canonical_idempotent (scheme : String)
    (hs : scheme = "http" ∨ scheme = "https") :
    (∀ host : List Char, bracketedBare host = false →
      canonicalAddress scheme (canonicalAddress scheme host) =
        canonicalAddress scheme host) ∧
    (∀ h : List Char, countChar ':' h = 0 → bracketedBare h = false →
      canonicalAddress scheme (h ++ ':' :: portMap scheme) =
        canonicalAddress scheme h) := by
  constructor
  · exact fun host hF => canonicalAddress_idem_aux scheme hs host hF
  · intro h hc hF
    have hbare := canonicalAddress_bare scheme h hc
    rw [← hbare]
    exact canonicalAddress_idem_aux scheme hs h hF

theorem c6_witness :
    canonicalAddress "http" (canonicalAddress "http" "registry.example.com".data) =
        canonicalAddress "http" "registry.example.com".data ∧
      canonicalAddress "http" ("registry.example.com".data ++ ':' :: portMap "http") =
        canonicalAddress "http" "registry.example.com".data := by
  have h := c6_canonical_idempotent "http" (Or.inl rfl)
  exact ⟨h.1 _ (by decide), h.2 _ (by decide) (by decide)⟩

/-- C7: when both flow attempts fail, the refresh surfaces the second
(fallback) attempt's error; the first attempt's error is discarded. -/
theorem c7_fallback_error (bt : BearerTransport) (o : RefreshOracle) (auth : AuthConfig)
    (e1 e2 : GoError)
    (hba : bt.basicAuth = .ok auth)
    (h1 : o.flowRes (flowOrder auth).1 = .error e1)
    (h2 : o.flowRes (flowOrder auth).2 = .error e2) :
    (refresh bt o).err = some e2 ∧
      (refresh bt o).attempts = [(flowOrder auth).1, (flowOrder auth).2] := by
  have htf : tryFlows o (flowOrder auth) =
      (.error e2, [(flowOrder auth).1, (flowOrder auth).2]) := by
    simp [tryFlows, h1, h2]
  constructor <;> simp [refresh, hba, htf]

theorem c7_witness :
    (refresh wBT wOracleFail).err = some (.msg "second error") ∧
      (refresh wBT wOracleFail).attempts = [TokenFlow.oauthF, TokenFlow.basicF] := by
  have h := c7_fallback_error wBT wOracleFail wAuth (.msg "first error") (.msg "second error")
    (by decide) (by decide) (by decide)
  exact ⟨h.1, h.2⟩

/-- C8: every refresh error leaves the transport state unchanged, and after
a 401 the dispatch aborts with exactly that error; once a refresh has been
attempted the outcome is either an error or the retried request's result,
never the original 401 response. -/
theorem c8_error_propagation (bt : BearerTransport) (req : HTTPRequest)
    (inner : Nat → HTTPRequest → Except GoError HTTPResponse) (o : RefreshOracle)
    (r1 : HTTPResponse) :
    (∀ e, (refresh bt o).err = some e → (refresh bt o).bt = bt) ∧
    (inner 0 (applyAuth bt req) = .ok r1 → r1.statusCode = 401 →
      (∀ e, (refresh bt o).err = some e → (roundTrip bt req inner o).1 = .error e) ∧
      ((∃ e, (roundTrip bt req inner o).1 = .error e) ∨
        (roundTrip bt req inner o).1 =
          inner 1 (applyAuth (refresh bt o).bt (applyAuth bt req)))) := by
  constructor
  · intro e he
    rcases hba : bt.basicAuth with eb | auth
    · simp [refresh, hba]
    · rcases htf : tryFlows o (flowOrder auth) with ⟨res, att⟩
      rcases res with e' | content
      · simp [refresh, hba, htf]
      · rcases hp : o.parse content with e' | resp
        · simp [refresh, hba, htf, hp]
        · by_cases h1 : resp.accessToken = ""
          · by_cases h2 : resp.token = ""
            · simp [refresh, hba, htf, hp, h1, h2]
            · simp [refresh, hba, htf, hp, h1, h2] at he
          · simp [refresh, hba, htf, hp, h1] at he
  · intro hfirst h401
    constructor
    · intro e he
      simp [roundTrip, hfirst, h401, he]
    · rcases herr : (refresh bt o).err with _ | e
      · right
        simp [roundTrip, hfirst, h401, herr]
      · left
        exact ⟨e, by simp [roundTrip, hfirst, h401, herr]⟩

theorem c8_witness :
    (refresh wBT wOracleFail).bt = wBT ∧
      (roundTrip wBT wReq wInner wOracleFail).1 = .error (.msg "second error") := by
  have h := c8_error_propagation wBT wReq wInner wOracleFail { statusCode := 401, body := "" }
  exact ⟨h.1 (.msg "second error") (by decide),
    (h.2 (by decide) (by decide)).1 (.msg "second error") (by decide)⟩

/-! Fixtures for the OAuth2 fetcher claims. -/

def c9BT : BearerTransport :=
  { basicAuth := .ok { username := "", password := "", identityToken := "", registryToken := "" },
    bearerToken := "", registry := "registry.example.com",
    realm := "https://auth.example.com/token?x=1",
    service := "registry.example.com", scopes := [], scheme := "https" }

def c9Oracle : OauthOracle :=
  { parseURL := fun s =>
      if s = "https://auth.example.com/token?x=1" then
        .ok { base := "https://auth.example.com/token", rawQuery := "x=1" }
      else .error (.msg "parse error"),
    postForm := fun _ _ => .ok { statusCode := 200, body := "respbody" } }

/-- The POST recorded by `refreshOauth` when the realm parses. -/
theorem refreshOauth_call (bt : BearerTransport) (o : OauthOracle) (auth : AuthConfig)
    (u : ParsedURL) (hba : bt.basicAuth = .ok auth) (hu : o.parseURL bt.realm = .ok u) :
    (refreshOauth bt o).2 = some ⟨urlString u, oauthForm bt auth⟩ := by
  rcases hpost : o.postForm (urlString u) (oauthForm bt auth) with e | r
  · simp [refreshOauth, hba, hu, hpost]
  · rcases hc : checkError r 200 with _ | e <;>
      simp [refreshOauth, hba, hu, hpost, hc]

/-- C9 counterexample: with a realm whose query string is `x=1`, the OAuth2
fetcher issues its POST to a target that still carries that query string —
the claim that the POST always goes to the realm URL with no query string
is false. -/
theorem c9_counterexample :
    (refreshOauth c9BT c9Oracle).2.map OauthCall.target =
        some "https://auth.example.com/token?x=1" ∧
      hasChar '?' "https://auth.example.com/token?x=1".data = true := by
  constructor
  · decide
  · decide

/-- C9 (amended): the OAuth2 fetcher posts the form exactly to the parsed
realm URL as re-serialized — adding no query parameters, so the target is
query-free exactly when the realm's own query is empty — requires status
200, returns the raw body on a 200, and fails with the classified
status/body error on any other status. -/
theorem c9_oauth_post (bt : BearerTransport) (o : OauthOracle) (auth : AuthConfig)
    (u : ParsedURL) (resp : HTTPResponse)
    (hba : bt.basicAuth = .ok auth)
    (hu : o.parseURL bt.realm = .ok u) :
    (refreshOauth bt o).2 = some ⟨urlString u, oauthForm bt auth⟩ ∧
    (u.rawQuery = "" → urlString u = u.base) ∧
    (o.postForm (urlString u) (oauthForm bt auth) = .ok resp →
      (resp.statusCode = 200 → (refreshOauth bt o).1 = .ok resp.body) ∧
      (resp.statusCode ≠ 200 →
        (refreshOauth bt o).1 = .error (.checkErr resp.statusCode resp.body))) := by
  refine ⟨refreshOauth_call bt o auth u hba hu, ?_, ?_⟩
  · intro hq
    simp [urlString, hq]
  · intro hpost
    constructor
    · intro h200
      simp [refreshOauth, hba, hu, hpost, checkError, h200]
    · intro hn
      simp [refreshOauth, hba, hu, hpost, checkError, hn]

theorem c9_witness :
    (refreshOauth c9BT c9Oracle).2 =
        some ⟨urlString { base := "https://auth.example.com/token", rawQuery := "x=1" },
          oauthForm c9BT
            { username := "", password := "", identityToken := "", registryToken := "" }⟩ ∧
      (refreshOauth c9BT c9Oracle).1 = .ok "respbody" := by
  have h := c9_oauth_post c9BT c9Oracle
    { username := "", password := "", identityToken := "", registryToken := "" }
    { base := "https://auth.example.com/token", rawQuery := "x=1" }
    { statusCode := 200, body := "respbody" } (by decide) (by decide)
  exact ⟨h.1, (h.2.2 (by decide)).1 (by decide)⟩

def c10BT : BearerTransport :=
  { basicAuth := .ok { username := "", password := "", identityToken := "", registryToken := "" },
    bearerToken := "", registry := "registry.example.com",
    realm := "https://auth.example.com/token",
    service := "svc", scopes := ["a", "b"], scheme := "https" }

def c10Oracle : OauthOracle :=
  { parseURL := fun s =>
      if s = "https://auth.example.com/token" then
        .ok { base := "https://auth.example.com/token", rawQuery := "" }
      else .error (.msg "parse error"),
    postForm := fun _ _ => .error (.msg "network down") }

/-- C10: with neither a non-empty identity token nor a full username and
password pair, the OAuth2 fetcher still issues the POST, and the form holds
exactly the `scope`, `service` and `client_id` fields — no grant fields. -/
theorem c10_oauth_minimal_form (bt : BearerTransport) (o : OauthOracle) (auth : AuthConfig)
    (u : ParsedURL)
    (hba : bt.basicAuth = .ok auth)
    (hid : auth.identityToken = "")
    (hup : auth.username = "" ∨ auth.password = "")
    (hu : o.parseURL bt.realm = .ok u) :
    (refreshOauth bt o).2 =
      some ⟨urlString u,
        [("scope", String.intercalate " " bt.scopes), ("service", bt.service),
          ("client_id", transportName)]⟩ := by
  have hform : oauthForm bt auth =
      [("scope", String.intercalate " " bt.scopes), ("service", bt.service),
        ("client_id", transportName)] := by
    rcases hup with h | h <;> simp [oauthForm, hid, h]
  rw [refreshOauth_call bt o auth u hba hu, hform]

theorem c10_witness :
    (refreshOauth c10BT c10Oracle).2 =
      some ⟨urlString { base := "https://auth.example.com/token", rawQuery := "" },
        [("scope", String.intercalate " " c10BT.scopes), ("service", c10BT.service),
          ("client_id", transportName)]⟩ := by
  exact c10_oauth_minimal_form c10BT c10Oracle
    { username := "", password := "", identityToken := "", registryToken := "" }
    { base := "https://auth.example.com/token", rawQuery := "" }
    (by decide) (by decide) (Or.inl (by decide)) (by decide)
